import Mathlib

/-!
Verification development for the rss2bsky pipeline (src/rss2bsky.py).

Strings from the Python side are modelled as `List Char`; bytes as `List Nat`
(each element a byte value `< 256` in well-formed inputs); timestamps as `Int`
(seconds relative to the Unix epoch, `arrow.get(0)` being `0`); external
collaborators (network, BeautifulSoup text extraction, charset detection,
blob upload, login) are modelled as explicit function parameters or
`Option`/`Except` values.
-/

namespace Rss2Bsky

/-! ## Python string primitives used by the source -/

/-- Whitespace characters removed by Python `str.strip()` (ASCII subset, which
covers every input considered in this development). -/
def isPySpace (c : Char) : Bool :=
  c == ' ' || c == '\t' || c == '\n' || c == '\r' || c == '\x0b' || c == '\x0c'

/-- Remove trailing whitespace (the tail half of Python `str.strip()`). -/
def dropTrail (s : List Char) : List Char :=
  (s.reverse.dropWhile isPySpace).reverse

/-- Python `str.strip()`: remove leading and trailing whitespace. -/
def pyStrip (s : List Char) : List Char :=
  dropTrail (s.dropWhile isPySpace)

/-- Python `str.startswith("http")` as used at rss2bsky.py line 84. -/
def startsWithHttp (s : List Char) : Bool :=
  List.isPrefixOf ['h', 't', 't', 'p'] s

/-- ASCII alphanumeric, the character class `[a-zA-Z0-9]` of the hashtag
pattern at rss2bsky.py line 88. -/
def isAlnumAscii (c : Char) : Bool :=
  (('a' ≤ c && c ≤ 'z') || ('A' ≤ c && c ≤ 'Z') || ('0' ≤ c && c ≤ '9'))

/-- Every character is ASCII (code point below 128). -/
def allAscii (s : List Char) : Bool :=
  s.all (fun c => c.toNat < 128)

/-! ## Dedup Gate (rss2bsky.py lines 70-77 and 176) -/

/-- One item of the remote author feed, as consumed by `get_last_bsky`:
`reason` is present on reposts, `reply` on replies; `createdAt` is the
record's creation timestamp. -/
structure TimelineItem where
  reason : Option (List Char)
  reply : Option (List Char)
  createdAt : Int
deriving DecidableEq

/-- `get_last_bsky` (rss2bsky.py lines 70-77): scan the author feed in the
order delivered and return the creation time of the first item that is
neither a repost (`reason is None`) nor a reply; if none qualifies, return
`arrow.get(0)`, the epoch. -/
def get_last_bsky : List TimelineItem → Int
  | [] => 0
  | t :: ts =>
    if t.reason = none ∧ t.reply = none then t.createdAt else get_last_bsky ts

/-- The dedup gate at rss2bsky.py line 176: `rss_time > last_bsky`. -/
def shouldPost (rssTime lastBsky : Int) : Bool :=
  lastBsky < rssTime

/-! ## Rich-Text Tokenizer (rss2bsky.py lines 79-96) -/

/-- Python `content.split("\n")` (rss2bsky.py line 81): split on newline;
the result is never empty and keeps empty pieces. -/
def splitNl : List Char → List (List Char)
  | [] => [[]]
  | c :: cs =>
    if c = '\n' then [] :: splitNl cs
    else
      match splitNl cs with
      | h :: t => (c :: h) :: t
      | [] => [[c]]

/-- Whether a list starts with an ASCII alphanumeric character. -/
def headAlnum : List Char → Bool
  | c :: _ => isAlnumAscii c
  | [] => false

/-- Leftmost match of the regex `#[a-zA-Z0-9]+` in a line: returns
`(before, match, after)` where `match` is `'#'` followed by the maximal
nonempty alphanumeric run, or `none` when the pattern does not occur. -/
def findTag : List Char → Option (List Char × List Char × List Char)
  | [] => none
  | c :: cs =>
    if c == '#' && headAlnum cs then
      some ([], '#' :: cs.takeWhile isAlnumAscii, cs.dropWhile isAlnumAscii)
    else
      match findTag cs with
      | some (p, m, r) => some (c :: p, m, r)
      | none => none

/-- Fueled worker for `tagSplit`; the fuel only serves termination and
`tagSplit` always supplies enough of it. -/
def tagSplitF : Nat → List Char → List (List Char)
  | 0, s => [s]
  | fuel + 1, s =>
    match findTag s with
    | none => [s]
    | some (p, m, r) => p :: m :: tagSplitF fuel r

/-- Python `re.split("(#[a-zA-Z0-9]+)", line)` (rss2bsky.py line 88): the
pieces between matches interleaved with the captured matches; starts and ends
with a (possibly empty) non-capture piece. -/
def tagSplit (s : List Char) : List (List Char) :=
  tagSplitF s.length s

/-- One run of the built rich text: plain text, a clickable link
(display text, target), or a hashtag (display text, tag value). -/
inductive Run where
  | text (s : List Char)
  | link (display target : List Char)
  | tag (display tagValue : List Char)
deriving DecidableEq

/-- Python `t.startswith("#")`: whether a segment starts with `'#'`
(the test at rss2bsky.py line 92). -/
def headHash : List Char → Bool
  | c :: _ => c == '#'
  | [] => false

/-- Classification of one split segment `t` (rss2bsky.py lines 92-95):
`t.startswith("#")` makes a hashtag run with tag value `t[1:].strip()`,
anything else a plain-text run. -/
def segRun (t : List Char) : Run :=
  if headHash t then Run.tag t (pyStrip (t.drop 1)) else Run.text t

/-- Emit runs for the segments of one line (rss2bsky.py lines 89-95): the
last segment receives the synthetic `"\n"` before classification. -/
def emitSegs : List (List Char) → List Run
  | [] => []
  | [t] => [segRun (t ++ ['\n'])]
  | t :: t2 :: ts => segRun t :: emitSegs (t2 :: ts)

/-- Runs emitted for one line (rss2bsky.py lines 82-95): a line that starts
with `"http"` becomes a single link run displaying and targeting the stripped
line; otherwise the hashtag split is classified segment by segment. -/
def makeRichLine (line : List Char) : List Run :=
  if startsWithHttp line then
    [Run.link (pyStrip line) (pyStrip line)]
  else
    emitSegs (tagSplit line)

/-- `make_rich` (rss2bsky.py lines 79-96), as the list of runs the
`TextBuilder` receives. -/
def make_rich (content : List Char) : List Run :=
  ((splitNl content).map makeRichLine).flatten

/-- The display text a run contributes to the built post body
(`TextBuilder.text`/`link`/`tag` all display their first argument). -/
def runDisplay : Run → List Char
  | .text s => s
  | .link d _ => d
  | .tag d _ => d

/-- Concatenated display text of a list of runs. -/
def concatDisplays (rs : List Run) : List Char :=
  (rs.map runDisplay).flatten

/-- Per-line concatenated display text of the whole tokenizer output. -/
def lineDisplays (content : List Char) : List (List Char) :=
  (splitNl content).map (fun l => concatDisplays (makeRichLine l))

/-- What claim C2 predicts for `lineDisplays`: every line verbatim, except
that the last line of the body gains one trailing newline. -/
def claimC2Expected : List (List Char) → List (List Char)
  | [] => []
  | [l] => [l ++ ['\n']]
  | l :: l2 :: ls => l :: claimC2Expected (l2 :: ls)

/-! ## Text Sanitizer (rss2bsky.py lines 23-51 and 112-113) -/

/-- Whether a `'>'` occurs before any newline in the rest of the input,
completing a candidate `<.*?>` match (the regex `.` does not match a
newline). -/
def closesTag : List Char → Bool
  | [] => false
  | c :: cs => if c == '>' then true else if c == '\n' then false else closesTag cs

/-- `is_html` (rss2bsky.py lines 112-113): whether `re.search(r'<.*?>', text)`
finds a match, i.e. some `'<'` is followed by a later `'>'` with no newline
between them. -/
def is_html : List Char → Bool
  | [] => false
  | c :: cs => (c == '<' && closesTag cs) || is_html cs

/-- Named HTML character references of the model. CPython `html.unescape`
resolves names against the full `html5` table, both with and without the
trailing semicolon, preferring the longest matching prefix; this table keeps
that resolution structure (longer, semicolon-terminated forms tried first)
but is restricted to a finite set of names. No theorem relies on a name
being absent from this table: unescaping is only ever assumed to be the
identity on ampersand-free input, where CPython's `unescape` returns its
argument unchanged by its first line. -/
def entityTable : List (List Char × List Char) :=
  [("amp;".data, "&".data), ("lt;".data, "<".data), ("gt;".data, ">".data),
   ("quot;".data, "\"".data), ("apos;".data, [Char.ofNat 0x27]),
   ("nbsp;".data, [Char.ofNat 0xA0]),
   ("amp".data, "&".data), ("lt".data, "<".data), ("gt".data, ">".data),
   ("quot".data, "\"".data), ("nbsp".data, [Char.ofNat 0xA0])]

/-- Hexadecimal digit, the class `[0-9a-fA-F]` of the reference regex. -/
def isHexDigit (c : Char) : Bool :=
  c.isDigit || ('a' ≤ c && c ≤ 'f') || ('A' ≤ c && c ≤ 'F')

/-- Value of one hexadecimal digit. -/
def hexDigitVal (c : Char) : Nat :=
  if c.isDigit then c.toNat - 48
  else if 'a' ≤ c && c ≤ 'f' then c.toNat - 87
  else c.toNat - 55

/-- Value of a decimal digit string. -/
def decVal (ds : List Char) : Nat :=
  ds.foldl (fun a c => a * 10 + (c.toNat - 48)) 0

/-- Value of a hexadecimal digit string. -/
def hexVal (ds : List Char) : Nat :=
  ds.foldl (fun a c => a * 16 + hexDigitVal c) 0

/-- Consume the optional trailing semicolon of a character reference
(the `;?` of the reference regex). -/
def dropSemi : List Char → List Char
  | ';' :: rest => rest
  | rest => rest

/-- CPython `html._invalid_charrefs`: numeric references remapped to other
code points (NUL, CR and the windows-1252 range `0x80`-`0x9F`). -/
def invalidCharrefs : List (Nat × Nat) :=
  [(0x00, 0xFFFD), (0x0d, 0x0D), (0x80, 0x20AC), (0x81, 0x81),
   (0x82, 0x201A), (0x83, 0x192), (0x84, 0x201E), (0x85, 0x2026),
   (0x86, 0x2020), (0x87, 0x2021), (0x88, 0x2C6), (0x89, 0x2030),
   (0x8a, 0x160), (0x8b, 0x2039), (0x8c, 0x152), (0x8d, 0x8D),
   (0x8e, 0x17D), (0x8f, 0x8F), (0x90, 0x90), (0x91, 0x2018),
   (0x92, 0x2019), (0x93, 0x201C), (0x94, 0x201D), (0x95, 0x2022),
   (0x96, 0x2013), (0x97, 0x2014), (0x98, 0x2DC), (0x99, 0x2122),
   (0x9a, 0x161), (0x9b, 0x203A), (0x9c, 0x153), (0x9d, 0x9D),
   (0x9e, 0x17E), (0x9f, 0x178)]

/-- CPython `html._invalid_codepoints`: numeric references dropped from the
output (controls, noncharacters). -/
def isInvalidCodepoint (n : Nat) : Bool :=
  decide ((0x1 ≤ n ∧ n ≤ 0x8) ∨ n = 0xb ∨ (0xe ≤ n ∧ n ≤ 0x1f) ∨
    (0x7f ≤ n ∧ n ≤ 0x9f) ∨ (0xfdd0 ≤ n ∧ n ≤ 0xfdef) ∨
    n % 0x10000 = 0xfffe ∨ n % 0x10000 = 0xffff)

/-- CPython `html._replace_charref` on a numeric reference value: the
`_invalid_charrefs` remapping first, then U+FFFD for surrogates and values
above U+10FFFF, then removal of `_invalid_codepoints`, else the code point
itself. -/
def charrefChar (num : Nat) : List Char :=
  match invalidCharrefs.find? (fun p => p.1 == num) with
  | some p => [Char.ofNat p.2]
  | none =>
    if decide ((0xD800 ≤ num ∧ num ≤ 0xDFFF) ∨ 0x10FFFF < num) then
      [Char.ofNat 0xFFFD]
    else if isInvalidCodepoint num then []
    else [Char.ofNat num]

/-- A numeric character reference right after `"&#"`: `#[0-9]+;?` or
`#[xX][0-9a-fA-F]+;?`, resolved through `charrefChar`; `rest` is the input
right after the `'#'`. -/
def matchNumeric (rest : List Char) : Option (List Char × List Char) :=
  match rest with
  | x :: rest2 =>
    if x == 'x' || x == 'X' then
      let ds := rest2.takeWhile isHexDigit
      if ds.isEmpty then none
      else some (charrefChar (hexVal ds), dropSemi (rest2.drop ds.length))
    else
      let ds := rest.takeWhile Char.isDigit
      if ds.isEmpty then none
      else some (charrefChar (decVal ds), dropSemi (rest.drop ds.length))
  | [] => none

/-- Resolve a character reference starting right after a `'&'`: a numeric
reference on a leading `'#'`, otherwise the first named-table entry that is
a prefix of the remaining input, producing the replacement text and the
input left after the consumed reference; `none` leaves the `'&'` literal. -/
def matchEntity (cs : List Char) : Option (List Char × List Char) :=
  match cs with
  | '#' :: rest => matchNumeric rest
  | _ =>
    entityTable.findSome? (fun er =>
      if er.1.isPrefixOf cs then some (er.2, cs.drop er.1.length) else none)

/-- Fueled worker for `desescapar_unicode`: each step consumes at least one
input character, so the input length is always enough fuel. -/
def unescapeF : Nat → List Char → List Char
  | 0, s => s
  | _ + 1, [] => []
  | fuel + 1, c :: cs =>
    if c == '&' then
      match matchEntity cs with
      | some (rep, rest) => rep ++ unescapeF fuel rest
      | none => c :: unescapeF fuel cs
    else
      c :: unescapeF fuel cs

/-- `desescapar_unicode` (rss2bsky.py lines 32-37): `html.unescape`, with
full numeric character references and the model's named table. A string
without `'&'` is returned unchanged, exactly as CPython's `unescape` does by
its first line. `html.unescape` never raises, so the function's `except`
branch is dead and is not modelled. -/
def desescapar_unicode (s : List Char) : List Char :=
  unescapeF s.length s

/-- Python `str.encode("latin-1")`: `none` models the `UnicodeEncodeError`
raised when a character lies above `U+00FF`. -/
def latin1Encode (s : List Char) : Option (List Nat) :=
  if s.all (fun c => c.toNat < 256) then some (s.map Char.toNat) else none

/-- Whether a byte is a UTF-8 continuation byte (`0x80`-`0xBF`). -/
def isContByte (b : Nat) : Bool :=
  decide (0x80 ≤ b ∧ b ≤ 0xBF)

/-- Constraint on the second byte of a three-byte UTF-8 sequence led by `b1`
(rules out overlong encodings and surrogate code points). -/
def cont2Ok (b1 b2 : Nat) : Bool :=
  if b1 == 0xE0 then decide (0xA0 ≤ b2 ∧ b2 ≤ 0xBF)
  else if b1 == 0xED then decide (0x80 ≤ b2 ∧ b2 ≤ 0x9F)
  else isContByte b2

/-- Constraint on the second byte of a four-byte UTF-8 sequence led by `b1`
(rules out overlong encodings and code points above `0x10FFFF`). -/
def cont3Ok (b1 b2 : Nat) : Bool :=
  if b1 == 0xF0 then decide (0x90 ≤ b2 ∧ b2 ≤ 0xBF)
  else if b1 == 0xF4 then decide (0x80 ≤ b2 ∧ b2 ≤ 0x8F)
  else isContByte b2

/-- The next byte exists and is a UTF-8 continuation byte. -/
def headContPair (bs : List Nat) : Bool :=
  match bs with
  | b :: _ => isContByte b
  | [] => false

/-- Fueled worker for `utf8Decode`: each step consumes at least one byte, so
the byte count is always enough fuel. -/
def utf8DecodeF : Nat → List Nat → Option (List Char)
  | 0, [] => some []
  | 0, _ :: _ => none
  | _ + 1, [] => some []
  | fuel + 1, b1 :: rest =>
    if b1 < 0x80 then
      (utf8DecodeF fuel rest).map (fun cs => Char.ofNat b1 :: cs)
    else if decide (0xC2 ≤ b1 ∧ b1 ≤ 0xDF) && headContPair rest then
      (utf8DecodeF fuel (rest.drop 1)).map (fun cs =>
        Char.ofNat ((b1 - 0xC0) * 0x40 + (rest.headD 0 - 0x80)) :: cs)
    else if decide (0xE0 ≤ b1 ∧ b1 ≤ 0xEF) && cont2Ok b1 (rest.headD 0) &&
        headContPair rest && headContPair (rest.drop 1) then
      (utf8DecodeF fuel (rest.drop 2)).map (fun cs =>
        Char.ofNat ((b1 - 0xE0) * 0x1000 + (rest.headD 0 - 0x80) * 0x40 +
          ((rest.drop 1).headD 0 - 0x80)) :: cs)
    else if decide (0xF0 ≤ b1 ∧ b1 ≤ 0xF4) && cont3Ok b1 (rest.headD 0) &&
        headContPair rest && headContPair (rest.drop 1) &&
        headContPair (rest.drop 2) then
      (utf8DecodeF fuel (rest.drop 3)).map (fun cs =>
        Char.ofNat ((b1 - 0xF0) * 0x40000 + (rest.headD 0 - 0x80) * 0x1000 +
          ((rest.drop 1).headD 0 - 0x80) * 0x40 +
          ((rest.drop 2).headD 0 - 0x80)) :: cs)
    else none

/-- Strict UTF-8 decoding, Python `bytes.decode("utf-8")`: `none` models a
`UnicodeDecodeError` (invalid lead or continuation byte, overlong form,
surrogate, out-of-range code point, or truncated sequence). -/
def utf8Decode (bs : List Nat) : Option (List Char) :=
  utf8DecodeF bs.length bs

/-- `fix_encoding` (rss2bsky.py lines 23-29): re-encode as Latin-1 and
re-decode as UTF-8; on either `UnicodeEncodeError` or `UnicodeDecodeError`
return the input unchanged. -/
def fix_encoding (s : List Char) : List Char :=
  match latin1Encode s with
  | none => s
  | some bs =>
    match utf8Decode bs with
    | none => s
    | some t => t

/-- `process_title` (rss2bsky.py lines 40-51). `soupText` stands for the
external `BeautifulSoup(title, "html.parser").get_text()` collaborator,
reached only when the title contains HTML tag syntax. The body is total, so
the surrounding `except` branch is dead and is not modelled. -/
def process_title (soupText : List Char → List Char) (title : List Char) :
    List Char :=
  let t := if is_html title then pyStrip (soupText title) else pyStrip title
  fix_encoding (desescapar_unicode t)

/-! ## Encoding Normalizer (rss2bsky.py lines 147-159) -/

/-- Fueled worker for `utf8DecodeIgnore`: each step consumes at least one
byte, so the byte count is always enough fuel. -/
def utf8DecodeIgnoreF : Nat → List Nat → List Char
  | 0, _ => []
  | _ + 1, [] => []
  | fuel + 1, b1 :: rest =>
    if b1 < 0x80 then
      Char.ofNat b1 :: utf8DecodeIgnoreF fuel rest
    else if decide (0xC2 ≤ b1 ∧ b1 ≤ 0xDF) && headContPair rest then
      Char.ofNat ((b1 - 0xC0) * 0x40 + (rest.headD 0 - 0x80)) ::
        utf8DecodeIgnoreF fuel (rest.drop 1)
    else if decide (0xE0 ≤ b1 ∧ b1 ≤ 0xEF) && cont2Ok b1 (rest.headD 0) &&
        headContPair rest && headContPair (rest.drop 1) then
      Char.ofNat ((b1 - 0xE0) * 0x1000 + (rest.headD 0 - 0x80) * 0x40 +
        ((rest.drop 1).headD 0 - 0x80)) :: utf8DecodeIgnoreF fuel (rest.drop 2)
    else if decide (0xF0 ≤ b1 ∧ b1 ≤ 0xF4) && cont3Ok b1 (rest.headD 0) &&
        headContPair rest && headContPair (rest.drop 1) &&
        headContPair (rest.drop 2) then
      Char.ofNat ((b1 - 0xF0) * 0x40000 + (rest.headD 0 - 0x80) * 0x1000 +
        ((rest.drop 1).headD 0 - 0x80) * 0x40 +
        ((rest.drop 2).headD 0 - 0x80)) :: utf8DecodeIgnoreF fuel (rest.drop 3)
    else utf8DecodeIgnoreF fuel rest

/-- UTF-8 decoding with `errors="ignore"`: total; bytes that cannot start or
complete a valid sequence are skipped. -/
def utf8DecodeIgnore (bs : List Nat) : List Char :=
  utf8DecodeIgnoreF bs.length bs

/-- Python `bytes.decode("latin-1")`: every byte maps to the code point of
the same value, so on real bytes this never fails; the error case covers
values outside the byte range and models the `UnicodeDecodeError` the
second `except` clause anticipates. -/
def latin1DecodeE (bs : List Nat) : Except Unit (List Char) :=
  if bs.all (fun b => b < 256) then Except.ok (bs.map Char.ofNat)
  else Except.error ()

/-- The encoding-normalizer chain of `main` (rss2bsky.py lines 147-159):
`detect` stands for `charset_normalizer.from_bytes(...).best()`, with `none`
covering both a failed detection and a result without text (the raised and
caught `ValueError`); then a Latin-1 decode; then UTF-8 ignoring errors.
The `Except` result would expose an uncaught exception as `.error`. -/
def encodingNormalize (detect : List Nat → Option (List Char))
    (content : List Nat) : Except Unit (List Char) :=
  match detect content with
  | some t => Except.ok t
  | none =>
    match latin1DecodeE content with
    | Except.ok t => Except.ok t
    | Except.error _ => Except.ok (utf8DecodeIgnore content)

/-! ## Link-Preview Fetcher (rss2bsky.py lines 53-68) -/

/-- One HTML element found by the metadata queries of
`fetch_link_metadata`: its `content` attribute, when present, and its text
content. -/
structure MetaTag where
  content : Option (List Char)
  text : List Char
deriving DecidableEq

/-- The elements of a successfully fetched and parsed page that
`fetch_link_metadata` queries: the `og:title` and `<title>` candidates, the
`og:description` and `name=description` candidates, and the `og:image` and
`twitter:image` candidates. -/
structure Page where
  ogTitle : Option MetaTag
  titleTag : Option MetaTag
  ogDesc : Option MetaTag
  nameDesc : Option MetaTag
  ogImage : Option MetaTag
  twImage : Option MetaTag
deriving DecidableEq

/-- The dictionary `fetch_link_metadata` returns, read in `main` only
through `.get(...)`: a `none` field means the key is missing (the empty
dictionary of the failure path) or was stored as `None`. -/
structure LinkMetadata where
  title : Option (List Char)
  description : Option (List Char)
  image : Option (List Char)
deriving DecidableEq

/-- `fetch_link_metadata` (rss2bsky.py lines 53-68): the network fetch and
HTML parse is the `Except` argument, an `error` covering any raised network
or parse exception. On success each field falls back across the queried
elements exactly as lines 58-64 do (title: `content` attribute, else element
text, else `""`; description: `content` attribute, else `""`; image:
`content` attribute, else `None`); on any exception the empty dictionary is
returned. -/
def fetch_link_metadata (res : Except (List Char) Page) : LinkMetadata :=
  match res with
  | Except.error _ => ⟨none, none, none⟩
  | Except.ok p =>
    let title := p.ogTitle <|> p.titleTag
    let desc := p.ogDesc <|> p.nameDesc
    let image := p.ogImage <|> p.twImage
    ⟨some (match title with
        | some t => (match t.content with | some c => c | none => t.text)
        | none => []),
     some (match desc with
        | some d => (match d.content with | some c => c | none => [])
        | none => []),
     match image with
        | some i => i.content
        | none => none⟩

/-! ## Post Composer (rss2bsky.py lines 178-207) -/

/-- Python truthiness of a `dict.get(...)` result: `None` and the empty
string are falsy. -/
def pyTruthy : Option (List Char) → Bool
  | none => false
  | some s => !s.isEmpty

/-- Python `x or d` where `x` is a `dict.get(...)` result: the default
replaces both a missing key and an empty string. -/
def pyGetOr (o : Option (List Char)) (d : List Char) : List Char :=
  match o with
  | some s => if s.isEmpty then d else s
  | none => d

/-- An uploaded image model (`models.AppBskyEmbedImages.Image`): the alt
text plus the uploaded blob, abstracted to an identifier. -/
structure ImageModel where
  alt : List Char
  blob : Nat
deriving DecidableEq

/-- The embed attached to a post (rss2bsky.py lines 190-207): an image
embed, or an external link card (uri, title, description), or nothing. -/
inductive Embed where
  | images (imgs : List ImageModel)
  | external (uri title description : List Char)
deriving DecidableEq

/-- The embed-selection logic of `main` (rss2bsky.py lines 178-207):
`fetchUpload url alt` stands for `get_image_from_url(url, client, alt)`,
returning `none` on any fetch or upload failure; `link` is `item.link` and
`titleText` the processed title. An image is attempted only for a truthy
metadata image URL, with alt text `title_text or metadata title or
"Preview image"`; the external card needs a truthy title or description,
defaulting the title to `"Link"` and the description to `""`; images win
over the card, else the card, else no embed. -/
def composeEmbed (fetchUpload : List Char → List Char → Option ImageModel)
    (link titleText : List Char) (md : LinkMetadata) : Option Embed :=
  let images : List ImageModel :=
    if pyTruthy md.image then
      let altText :=
        if titleText.isEmpty then pyGetOr md.title ("Preview image".data)
        else titleText
      match fetchUpload (md.image.getD []) altText with
      | some img => [img]
      | none => []
    else []
  let externalEmbed : Option Embed :=
    if pyTruthy md.title || pyTruthy md.description then
      some (Embed.external link (pyGetOr md.title ("Link".data))
        (pyGetOr md.description []))
    else none
  if !images.isEmpty then some (Embed.images images) else externalEmbed

/-! ## Pipeline Driver (rss2bsky.py lines 115-217) -/

/-- One parsed feed entry as consumed by the loop of `main`
(rss2bsky.py lines 163-176). -/
structure FeedEntry where
  title : List Char
  link : List Char
  published : Int
deriving DecidableEq

/-- An observable remote submission of the per-entry loop body. -/
inductive Action where
  | send (richRuns : List Run) (embed : Option Embed)
deriving DecidableEq

/-- The per-entry loop body of `main` (rss2bsky.py lines 163-217) as the
list of remote `send_post` submissions it performs. The post text is the
processed title, a newline and the link; when the dedup gate passes, the
link metadata result is consulted (`fetchMeta` standing for the value of
`fetch_link_metadata(item.link)`), the embed is composed and `send_post` is
invoked — the enclosing `try` only logs a failure of that call, it does not
prevent it; when the gate fails nothing is sent. -/
def processEntry (soupText : List Char → List Char)
    (fetchMeta : List Char → LinkMetadata)
    (fetchUpload : List Char → List Char → Option ImageModel)
    (lastBsky : Int) (entry : FeedEntry) : List Action :=
  let titleText := process_title soupText entry.title
  let postText := titleText ++ '\n' :: entry.link
  let richRuns := make_rich postText
  if shouldPost entry.published lastBsky then
    [Action.send richRuns
      (composeEmbed fetchUpload entry.link titleText (fetchMeta entry.link))]
  else []

/-- The login backoff value (rss2bsky.py lines 130-138): it starts at 60 and
follows `backoff = min(backoff + 60, 600)` after each failed attempt, so
`backoffSeq n` is the delay slept after failed attempt `n`. -/
def backoffSeq : Nat → Nat
  | 0 => 60
  | n + 1 => min (backoffSeq n + 60) 600

/-- The login retry loop (rss2bsky.py lines 131-138) over an abstract
outcome oracle: `login k` tells whether attempt `k` succeeds. The loop exits
only on a successful attempt, whose index is returned; `none` means the fuel
ran out while the real (unbounded) loop would still be retrying. -/
def loginLoop (login : Nat → Bool) : Nat → Nat → Option Nat
  | 0, _ => none
  | fuel + 1, k => if login k then some k else loginLoop login fuel (k + 1)

/-! ## Theorems -/

/-! ### Helper lemmas on strings -/

theorem mem_of_mem_dropWhile {p : Char → Bool} {x : Char} :
    ∀ {l : List Char}, x ∈ l.dropWhile p → x ∈ l :=
  fun h => (List.dropWhile_sublist _).mem h

theorem mem_of_mem_dropTrail {x : Char} {l : List Char}
    (h : x ∈ dropTrail l) : x ∈ l := by
  unfold dropTrail at h
  rw [List.mem_reverse] at h
  exact List.mem_reverse.mp (mem_of_mem_dropWhile h)

theorem mem_of_mem_pyStrip {x : Char} {s : List Char}
    (h : x ∈ pyStrip s) : x ∈ s :=
  mem_of_mem_dropWhile (mem_of_mem_dropTrail h)

theorem dropTrail_append_space {c : Char} (hc : isPySpace c = true)
    (w : List Char) : dropTrail (w ++ [c]) = dropTrail w := by
  unfold dropTrail
  rw [List.reverse_append]
  simp [List.dropWhile_cons, hc]

theorem pyStrip_append_space {c : Char} (hc : isPySpace c = true)
    (u : List Char) : pyStrip (u ++ [c]) = pyStrip u := by
  unfold pyStrip
  rw [List.dropWhile_append]
  by_cases h : (u.dropWhile isPySpace).isEmpty
  · rw [if_pos h]
    rw [List.isEmpty_iff] at h
    rw [h]
    simp [List.dropWhile_cons, hc, dropTrail]
  · rw [if_neg h]
    exact dropTrail_append_space hc _

theorem dropWhile_dropWhile (p : Char → Bool) (l : List Char) :
    (l.dropWhile p).dropWhile p = l.dropWhile p := by
  induction l with
  | nil => rfl
  | cons c cs ih =>
    rw [List.dropWhile_cons]
    by_cases h : p c = true
    · rw [if_pos h]; exact ih
    · rw [if_neg h, List.dropWhile_cons, if_neg h]

theorem dropWhile_head_false (p : Char → Bool) :
    ∀ {l : List Char} {a : Char} {rest : List Char},
      l.dropWhile p = a :: rest → p a = false := by
  intro l
  induction l with
  | nil => intro a rest h; exact absurd h (by simp)
  | cons c cs ih =>
    intro a rest h
    rw [List.dropWhile_cons] at h
    by_cases hc : p c = true
    · rw [if_pos hc] at h; exact ih h
    · rw [if_neg hc] at h
      obtain ⟨h1, _⟩ := List.cons.injEq .. ▸ h
      subst h1
      simpa using hc

theorem dropTrail_append_exists (l : List Char) :
    ∃ u, l = dropTrail l ++ u := by
  refine ⟨(l.reverse.takeWhile isPySpace).reverse, ?_⟩
  unfold dropTrail
  rw [← List.reverse_append, List.takeWhile_append_dropWhile, List.reverse_reverse]

theorem dropTrail_dropTrail (l : List Char) :
    dropTrail (dropTrail l) = dropTrail l := by
  unfold dropTrail
  rw [List.reverse_reverse, dropWhile_dropWhile]

theorem pyStrip_idem (s : List Char) : pyStrip (pyStrip s) = pyStrip s := by
  unfold pyStrip
  have hdw : (dropTrail (s.dropWhile isPySpace)).dropWhile isPySpace =
      dropTrail (s.dropWhile isPySpace) := by
    cases hcase : dropTrail (s.dropWhile isPySpace) with
    | nil => rfl
    | cons a rest =>
      obtain ⟨u, hu⟩ := dropTrail_append_exists (s.dropWhile isPySpace)
      rw [hcase, List.cons_append] at hu
      have ha : isPySpace a = false := dropWhile_head_false isPySpace hu
      rw [List.dropWhile_cons, if_neg (by simp [ha])]
  rw [hdw, dropTrail_dropTrail]

theorem allAscii_pyStrip {s : List Char} (h : allAscii s = true) :
    allAscii (pyStrip s) = true := by
  rw [allAscii, List.all_eq_true] at h ⊢
  intro c hc
  exact h c (mem_of_mem_pyStrip hc)

/-! ### Helper lemmas on the sanitizer -/

theorem closesTag_append {u : List Char} (v : List Char)
    (h : closesTag u = true) : closesTag (u ++ v) = true := by
  induction u with
  | nil => simp [closesTag] at h
  | cons c cs ih =>
    rw [closesTag] at h
    rw [List.cons_append, closesTag]
    split at h
    · rename_i h1; rw [if_pos h1]
    · rename_i h1
      split at h
      · exact absurd h (by simp)
      · rename_i h2
        rw [if_neg h1, if_neg h2]
        exact ih h

theorem is_html_append {u : List Char} (v : List Char)
    (h : is_html u = true) : is_html (u ++ v) = true := by
  induction u with
  | nil => simp [is_html] at h
  | cons c cs ih =>
    rw [is_html] at h
    rw [List.cons_append, is_html]
    rcases Bool.or_eq_true_iff.mp h with h1 | h2
    · obtain ⟨hc, hct⟩ := Bool.and_eq_true_iff.mp h1
      exact Bool.or_eq_true_iff.mpr
        (Or.inl (Bool.and_eq_true_iff.mpr ⟨hc, closesTag_append v hct⟩))
    · exact Bool.or_eq_true_iff.mpr (Or.inr (ih h2))

theorem is_html_of_suffix {v : List Char} (u : List Char)
    (h : is_html v = true) : is_html (u ++ v) = true := by
  induction u with
  | nil => simpa using h
  | cons c cs ih =>
    rw [List.cons_append, is_html, ih, Bool.or_true]

theorem is_html_pyStrip_false {s : List Char} (h : is_html s = false) :
    is_html (pyStrip s) = false := by
  cases hcase : is_html (pyStrip s) with
  | false => rfl
  | true =>
    exfalso
    obtain ⟨u, hu⟩ := dropTrail_append_exists (s.dropWhile isPySpace)
    have h2 : is_html (s.dropWhile isPySpace) = true := by
      rw [hu]
      exact is_html_append u hcase
    have h3 : is_html s = true := by
      rw [← List.takeWhile_append_dropWhile (p := isPySpace) (l := s)]
      exact is_html_of_suffix _ h2
    rw [h3] at h
    exact absurd h (by simp)

theorem utf8DecodeF_ascii :
    ∀ (s : List Char), (∀ c ∈ s, c.toNat < 128) →
      utf8DecodeF s.length (s.map Char.toNat) = some s := by
  intro s
  induction s with
  | nil => intro _; rfl
  | cons c cs ih =>
    intro h
    have hc : c.toNat < 128 := h c (by simp)
    rw [List.map_cons, List.length_cons]
    simp only [utf8DecodeF]
    rw [if_pos (show c.toNat < 0x80 by omega)]
    rw [ih (fun x hx => h x (List.mem_cons_of_mem _ hx))]
    simp [Char.ofNat_toNat]

theorem utf8Decode_ascii {s : List Char} (h : ∀ c ∈ s, c.toNat < 128) :
    utf8Decode (s.map Char.toNat) = some s := by
  rw [utf8Decode, List.length_map]
  exact utf8DecodeF_ascii s h

theorem fix_encoding_ascii {t : List Char} (h : allAscii t = true) :
    fix_encoding t = t := by
  have h' : ∀ c ∈ t, c.toNat < 128 := by
    rw [allAscii, List.all_eq_true] at h
    intro c hc
    simpa using h c hc
  have h256 : (t.all fun c => decide (c.toNat < 256)) = true := by
    rw [List.all_eq_true]
    intro c hc
    simp only [decide_eq_true_eq]
    have := h' c hc
    omega
  rw [fix_encoding, latin1Encode, if_pos h256]
  simp only [utf8Decode_ascii h']

theorem process_title_not_html {soupText : List Char → List Char}
    {title : List Char} (h : is_html title = false) :
    process_title soupText title =
      fix_encoding (desescapar_unicode (pyStrip title)) := by
  rw [process_title]
  simp [h]

/-! ### Helper lemmas on the tokenizer -/

theorem findTag_spec :
    ∀ {s p m r : List Char}, findTag s = some (p, m, r) → p ++ (m ++ r) = s := by
  intro s
  induction s with
  | nil => intro p m r h; simp [findTag] at h
  | cons c cs ih =>
    intro p m r h
    rw [findTag] at h
    by_cases hc : (c == '#' && headAlnum cs) = true
    · rw [if_pos hc] at h
      simp only [Option.some.injEq, Prod.mk.injEq] at h
      obtain ⟨h1, h2, h3⟩ := h
      subst h1 h2 h3
      have hc' : c = '#' := by
        have := (Bool.and_eq_true ..).mp hc
        exact beq_iff_eq.mp this.1
      subst hc'
      simp [List.takeWhile_append_dropWhile]
    · rw [if_neg hc] at h
      cases hrec : findTag cs with
      | none => rw [hrec] at h; exact absurd h (by simp)
      | some pmr =>
        obtain ⟨p', m', r'⟩ := pmr
        rw [hrec] at h
        simp only [Option.some.injEq, Prod.mk.injEq] at h
        obtain ⟨h1, h2, h3⟩ := h
        subst h1 h2 h3
        have := ih hrec
        simpa using congrArg (c :: ·) this

theorem tagSplitF_flatten : ∀ (fuel : Nat) (s : List Char),
    (tagSplitF fuel s).flatten = s := by
  intro fuel
  induction fuel with
  | zero => intro s; simp [tagSplitF]
  | succ n ih =>
    intro s
    rw [tagSplitF]
    cases h : findTag s with
    | none => simp
    | some pmr =>
      obtain ⟨p, m, r⟩ := pmr
      simp only [List.flatten_cons, ih r]
      rw [← List.append_assoc]
      simpa using findTag_spec h

theorem tagSplit_flatten (s : List Char) : (tagSplit s).flatten = s :=
  tagSplitF_flatten s.length s

theorem tagSplitF_ne_nil (fuel : Nat) (s : List Char) :
    tagSplitF fuel s ≠ [] := by
  cases fuel with
  | zero => simp [tagSplitF]
  | succ n =>
    rw [tagSplitF]
    cases h : findTag s with
    | none => simp
    | some pmr => obtain ⟨p, m, r⟩ := pmr; simp

theorem tagSplit_ne_nil (s : List Char) : tagSplit s ≠ [] :=
  tagSplitF_ne_nil s.length s

theorem mem_of_mem_tagSplit {x : Char} {t s : List Char}
    (ht : t ∈ tagSplit s) (hx : x ∈ t) : x ∈ s := by
  rw [← tagSplit_flatten s]
  exact List.mem_flatten.mpr ⟨t, ht, hx⟩

theorem segRun_display (u : List Char) : runDisplay (segRun u) = u := by
  by_cases h : headHash u = true <;> simp [segRun, runDisplay, h]

theorem segRun_eq_tag {u d tv : List Char} (h : segRun u = Run.tag d tv) :
    d = u ∧ tv = pyStrip (u.drop 1) := by
  by_cases hu : headHash u = true
  · rw [segRun, if_pos hu] at h
    simp only [Run.tag.injEq] at h
    exact ⟨h.1.symm, h.2.symm⟩
  · rw [segRun, if_neg hu] at h
    exact absurd h (by simp)

theorem segRun_of_headHash_false {u : List Char} (h : headHash u = false) :
    segRun u = Run.text u := by
  rw [segRun, if_neg (by simp [h])]

theorem headHash_append_nl {t : List Char} (h : headHash t = false) :
    headHash (t ++ ['\n']) = false := by
  cases t with
  | nil => decide
  | cons c cs => simpa [headHash] using h

theorem emitSegs_tagValue_no_nl :
    ∀ (segs : List (List Char)), (∀ t ∈ segs, '\n' ∉ t) →
      ∀ d tv, Run.tag d tv ∈ emitSegs segs → '\n' ∉ tv := by
  intro segs
  induction segs with
  | nil => intro _ d tv h; simp [emitSegs] at h
  | cons t rest ih =>
    intro hsegs d tv hmem
    have ht : '\n' ∉ t := hsegs t (by simp)
    cases rest with
    | nil =>
      simp only [emitSegs, List.mem_singleton] at hmem
      obtain ⟨hd, htv⟩ := segRun_eq_tag hmem.symm
      subst htv
      cases t with
      | nil => simp [pyStrip, dropTrail]
      | cons c cs =>
        intro hin
        rw [List.cons_append, List.drop_succ_cons, List.drop_zero,
          pyStrip_append_space (by decide) cs] at hin
        exact ht (List.mem_cons_of_mem c (mem_of_mem_pyStrip hin))
    | cons t2 ts =>
      simp only [emitSegs, List.mem_cons] at hmem
      cases hmem with
      | inl h =>
        obtain ⟨hd, htv⟩ := segRun_eq_tag h.symm
        subst htv
        intro hin
        exact ht (List.mem_of_mem_drop (mem_of_mem_pyStrip hin))
      | inr h =>
        exact ih (fun u hu => hsegs u (List.mem_cons_of_mem _ hu)) d tv h

theorem emitSegs_last_text :
    ∀ (segs : List (List Char)) (t0 : List Char),
      segs.getLast? = some t0 → headHash t0 = false →
      (emitSegs segs).getLast? = some (Run.text (t0 ++ ['\n'])) := by
  intro segs
  induction segs with
  | nil => intro t0 h; simp at h
  | cons t rest ih =>
    intro t0 hlast hhash
    cases rest with
    | nil =>
      simp only [List.getLast?_singleton, Option.some.injEq] at hlast
      subst hlast
      simp only [emitSegs, List.getLast?_singleton, Option.some.injEq]
      exact segRun_of_headHash_false (headHash_append_nl hhash)
    | cons t2 ts =>
      have h2 : (t2 :: ts).getLast? = some t0 := by
        rwa [List.getLast?_cons_cons] at hlast
      have := ih t0 h2 hhash
      rw [show emitSegs (t :: t2 :: ts) = segRun t :: emitSegs (t2 :: ts) from rfl]
      cases hmatch : emitSegs (t2 :: ts) with
      | nil => rw [hmatch] at this; simp at this
      | cons r rs =>
        rw [hmatch] at this
        rw [List.getLast?_cons_cons, this]

theorem emitSegs_display_no_nl :
    ∀ (segs : List (List Char)) (t0 : List Char), (∀ t ∈ segs, '\n' ∉ t) →
      segs.getLast? = some t0 → headHash t0 = false →
      ∀ d tv, Run.tag d tv ∈ emitSegs segs → '\n' ∉ d := by
  intro segs
  induction segs with
  | nil => intro t0 _ h; simp at h
  | cons t rest ih =>
    intro t0 hsegs hlast hhash d tv hmem
    cases rest with
    | nil =>
      simp only [List.getLast?_singleton, Option.some.injEq] at hlast
      subst hlast
      simp only [emitSegs, List.mem_singleton] at hmem
      rw [segRun_of_headHash_false (headHash_append_nl hhash)] at hmem
      exact absurd hmem.symm (by simp)
    | cons t2 ts =>
      simp only [emitSegs, List.mem_cons] at hmem
      cases hmem with
      | inl h =>
        obtain ⟨hd, _⟩ := segRun_eq_tag h.symm
        subst hd
        exact hsegs _ (by simp)
      | inr h =>
        have h2 : (t2 :: ts).getLast? = some t0 := by
          rwa [List.getLast?_cons_cons] at hlast
        exact ih t0 (fun u hu => hsegs u (List.mem_cons_of_mem _ hu)) h2 hhash d tv h

theorem emitSegs_displays :
    ∀ (segs : List (List Char)), segs ≠ [] →
      concatDisplays (emitSegs segs) = segs.flatten ++ ['\n'] := by
  intro segs
  induction segs with
  | nil => intro h; exact absurd rfl h
  | cons t rest ih =>
    intro _
    cases rest with
    | nil =>
      simp [emitSegs, concatDisplays, segRun_display]
    | cons t2 ts =>
      show concatDisplays (segRun t :: emitSegs (t2 :: ts)) = _
      simp only [concatDisplays, List.map_cons, List.flatten_cons, segRun_display]
      have := ih (by simp)
      simp only [concatDisplays] at this
      rw [this, List.flatten_cons]
      simp [List.append_assoc]

/-! ## Claim C1 -/

/-- Claim C1, counterexample: with an empty account history the marker is the
epoch (`0`), yet a feed entry whose published timestamp is exactly the epoch
does NOT pass the gate, so "every feed entry passes the gate" fails at this
input. -/
theorem dedup_gate_epoch_entry_cex :
    get_last_bsky [] = 0 ∧ shouldPost 0 (get_last_bsky []) = false := by
  decide

/-- Claim C1 (amended): an entry is posted iff its published timestamp is
strictly later than LastPostMarker; when the history contains no item that is
both non-repost and non-reply the marker is the epoch; hence every feed entry
published strictly after the epoch passes the gate. -/
theorem dedup_gate_spec :
    (∀ rssTime lastBsky : Int,
        shouldPost rssTime lastBsky = true ↔ lastBsky < rssTime) ∧
    (∀ items : List TimelineItem,
        (∀ t ∈ items, ¬(t.reason = none ∧ t.reply = none)) →
        get_last_bsky items = 0) ∧
    (∀ rssTime : Int, 0 < rssTime → shouldPost rssTime 0 = true) := by
  refine ⟨fun rssTime lastBsky => ?_, fun items h => ?_, fun rssTime h => ?_⟩
  · simp [shouldPost]
  · induction items with
    | nil => rfl
    | cons t ts ih =>
      have ht := h t (by simp)
      simp only [get_last_bsky, if_neg ht]
      exact ih fun u hu => h u (List.mem_cons_of_mem _ hu)
  · simpa [shouldPost]

/-- Claim C1 (amended), witness at concrete inputs: a history whose only item
is a repost yields the epoch marker, and an entry stamped one second after the
epoch passes the gate. -/
theorem dedup_gate_spec_witness :
    get_last_bsky [⟨some ['r'], none, 5⟩] = 0 ∧ shouldPost 1 0 = true := by
  refine ⟨dedup_gate_spec.2.1 [⟨some ['r'], none, 5⟩] ?_, dedup_gate_spec.2.2 1 ?_⟩
  · intro t ht
    simp only [List.mem_singleton] at ht
    subst ht
    decide
  · decide

/-! ## Claim C2 -/

/-- Claim C2, counterexample: for the body `"a\nb"` the claim predicts the
per-line display texts `["a", "b\n"]` (only the last line of the body gains
the synthetic newline), but the tokenizer appends a newline to the last run
of EVERY non-URL line, producing `["a\n", "b\n"]`. -/
theorem tokenizer_roundtrip_cex :
    lineDisplays ("a\nb".data) ≠ claimC2Expected (splitNl ("a\nb".data)) := by
  decide

/-- Claim C2 (amended): per input line, concatenating the display text of the
runs the tokenizer emits for that line yields the line plus one synthetic
trailing newline for every non-URL line (not only the body's last line), and
yields the whitespace-stripped line with NO newline for a line that starts
with `"http"`. -/
theorem tokenizer_line_displays (line : List Char) :
    concatDisplays (makeRichLine line) =
      if startsWithHttp line then pyStrip line else line ++ ['\n'] := by
  rw [makeRichLine]
  by_cases h : startsWithHttp line = true
  · rw [if_pos h, if_pos h]
    simp [concatDisplays, runDisplay]
  · rw [if_neg h, if_neg h]
    rw [emitSegs_displays _ (tagSplit_ne_nil line), tagSplit_flatten]

/-! ## Claim C4 -/

/-- Claim C4, counterexample: the line `" http://x"` starts, after trimming,
with the HTTP scheme prefix, yet the tokenizer emits it as a single
plain-text run (with the synthetic newline), not as a Link run: the
`startswith("http")` test runs on the untrimmed line. -/
theorem url_line_trim_cex :
    startsWithHttp (pyStrip (" http://x".data)) = true ∧
    makeRichLine (" http://x".data) = [Run.text (" http://x\n".data)] := by
  decide

/-- Claim C4 (amended): only a line that itself starts with the literal
`"http"` (leading whitespace not trimmed before the test) is emitted as a
single Link run, whose display text and target both equal the
whitespace-stripped line; a URL line with leading whitespace is not
recognized as a Link run. -/
theorem url_line_rule (line : List Char) (h : startsWithHttp line = true) :
    makeRichLine line = [Run.link (pyStrip line) (pyStrip line)] := by
  rw [makeRichLine, if_pos h]

/-- Claim C4 (amended), witness: the line `"http://x"` is emitted as a single
Link run displaying and targeting `"http://x"`. -/
theorem url_line_rule_witness :
    startsWithHttp ("http://x".data) = true ∧
    makeRichLine ("http://x".data) =
      [Run.link ("http://x".data) ("http://x".data)] :=
  ⟨by decide, by
    rw [url_line_rule ("http://x".data) (by decide)]
    decide⟩

/-! ## Claim C10 -/

/-- Claim C10, counterexample: for the line `"#"` the hashtag split is
`["#"]`, whose last (non-delimiter) segment starts with `'#'` after the
newline is appended, so it is emitted as a Hashtag run — not a PlainText
run — whose display text `"#\n"` carries the synthetic newline and is not
`'#'` followed by an alphanumeric tag. -/
theorem hashtag_newline_cex :
    tagSplit ("#".data) = [("#".data)] ∧
    makeRichLine ("#".data) = [Run.tag ('#' :: '\n' :: []) []] := by
  decide

/-- Claim C10 (amended): for every non-URL line (no embedded newline), every
Hashtag run's tag value never contains a newline; moreover, whenever the last
segment of the hashtag split does not itself start with `'#'`, that last
segment is emitted as a PlainText run carrying the synthetic newline and no
Hashtag run's display text contains the newline. (A last segment that starts
with `'#'` without matching the hashtag pattern, such as a lone `"#"`, is
instead emitted as a Hashtag run carrying the newline.) -/
theorem hashtag_runs_spec (line : List Char)
    (hnl : '\n' ∉ line) (hhttp : startsWithHttp line = false) :
    (∀ d tv, Run.tag d tv ∈ makeRichLine line → '\n' ∉ tv) ∧
    (∀ t0, (tagSplit line).getLast? = some t0 → headHash t0 = false →
      (makeRichLine line).getLast? = some (Run.text (t0 ++ ['\n'])) ∧
      (∀ d tv, Run.tag d tv ∈ makeRichLine line → '\n' ∉ d)) := by
  have hml : makeRichLine line = emitSegs (tagSplit line) := by
    rw [makeRichLine, if_neg (by simp [hhttp])]
  have hsegs : ∀ t ∈ tagSplit line, '\n' ∉ t := by
    intro t ht hx
    exact hnl (mem_of_mem_tagSplit ht hx)
  constructor
  · intro d tv hmem
    rw [hml] at hmem
    exact emitSegs_tagValue_no_nl (tagSplit line) hsegs d tv hmem
  · intro t0 hlast hhash
    constructor
    · rw [hml]
      exact emitSegs_last_text (tagSplit line) t0 hlast hhash
    · intro d tv hmem
      rw [hml] at hmem
      exact emitSegs_display_no_nl (tagSplit line) t0 hsegs hlast hhash d tv hmem

/-- Claim C10 (amended), witness: the line `"x #ab"` has no newline and is
not a URL line; its Hashtag run `#ab` has tag value `"ab"`, which the theorem
shows to be newline-free. -/
theorem hashtag_runs_spec_witness :
    ('\n' ∉ ("x #ab".data)) ∧ '\n' ∉ ("ab".data) :=
  ⟨by decide,
    (hashtag_runs_spec ("x #ab".data) (by decide) (by decide)).1
      ("#ab".data) ("ab".data) (by decide)⟩

/-! ## Claim C3 -/

/-- Claim C3, counterexample: `"&amp;amp;"` is pure ASCII and tag-free, yet
sanitizing once yields `"&amp;"` and sanitizing twice yields `"&"` — entity
unescaping is applied once per call and is not idempotent, so
`sanitize(sanitize(s)) ≠ sanitize(s)`. -/
theorem sanitize_idempotent_cex :
    allAscii ("&amp;amp;".data) = true ∧
    is_html ("&amp;amp;".data) = false ∧
    process_title (fun t => t) (process_title (fun t => t) ("&amp;amp;".data)) ≠
      process_title (fun t => t) ("&amp;amp;".data) := by
  decide

theorem unescapeF_no_amp :
    ∀ (fuel : Nat) (t : List Char), '&' ∉ t → unescapeF fuel t = t := by
  intro fuel
  induction fuel with
  | zero => intro t _; rfl
  | succ n ih =>
    intro t ht
    cases t with
    | nil => rfl
    | cons c cs =>
      have hc : c ≠ '&' := by
        intro h
        exact ht (h ▸ List.mem_cons_self c cs)
      rw [unescapeF, if_neg (by simp [hc])]
      rw [ih cs (fun h => ht (List.mem_cons_of_mem _ h))]

theorem desescapar_no_amp {t : List Char} (h : '&' ∉ t) :
    desescapar_unicode t = t :=
  unescapeF_no_amp t.length t h

/-- Claim C3 (amended): the sanitizer is idempotent on every pure-ASCII,
tag-free input that contains no ampersand — hence no HTML character
reference, named or numeric, since CPython's `unescape` returns any
ampersand-free string unchanged; an entity-bearing input such as
`"&amp;amp;"` breaks idempotence. -/
theorem sanitize_idempotent (soupText : List Char → List Char)
    (s : List Char) (hascii : allAscii s = true) (htag : is_html s = false)
    (hamp : '&' ∉ s) :
    process_title soupText (process_title soupText s) =
      process_title soupText s := by
  have hstrip : allAscii (pyStrip s) = true := allAscii_pyStrip hascii
  have hent : desescapar_unicode (pyStrip s) = pyStrip s :=
    desescapar_no_amp (fun h => hamp (mem_of_mem_pyStrip h))
  have h1 : process_title soupText s = pyStrip s := by
    rw [process_title_not_html htag, hent, fix_encoding_ascii hstrip]
  rw [h1, process_title_not_html (is_html_pyStrip_false htag), pyStrip_idem,
    hent, fix_encoding_ascii hstrip]

/-- Claim C3 (amended), witness: on the clean ASCII input `"ok"` all three
hypotheses hold by evaluation and the sanitizer is idempotent. -/
theorem sanitize_idempotent_witness :
    allAscii ("ok".data) = true ∧ is_html ("ok".data) = false ∧
    ('&' ∉ ("ok".data)) ∧
    process_title (fun t => t) (process_title (fun t => t) ("ok".data)) =
      process_title (fun t => t) ("ok".data) :=
  ⟨by decide, by decide, by decide,
    sanitize_idempotent (fun t => t) ("ok".data) (by decide) (by decide)
      (by decide)⟩

/-! ## Claim C7 -/

/-- Claim C7: the encoding normalizer (charset detection, then Latin-1, then
UTF-8 ignoring errors) returns a text string for every byte sequence and
every detector outcome — no branch of the fallback chain can raise. -/
theorem encoding_normalizer_total (detect : List Nat → Option (List Char))
    (content : List Nat) :
    ∃ t, encodingNormalize detect content = Except.ok t := by
  unfold encodingNormalize latin1DecodeE
  cases detect content with
  | some t => exact ⟨t, rfl⟩
  | none =>
    by_cases h : (content.all fun b => decide (b < 256)) = true
    · rw [if_pos h]
      exact ⟨_, rfl⟩
    · rw [if_neg h]
      exact ⟨_, rfl⟩

/-! ## Claim C5 -/

/-- Claim C5: for an entry passing the gate, the embed is the Image embed
exactly when the metadata carries a (truthy) preview image URL and the image
fetch and blob upload succeeded; otherwise it is an ExternalLink embed
exactly when the metadata has a non-empty title or non-empty description,
the card's title defaulting to the literal `"Link"` and its description to
the empty string; otherwise no embed is attached. -/
theorem embed_selection
    (fetchUpload : List Char → List Char → Option ImageModel)
    (link titleText : List Char) (md : LinkMetadata) :
    (∀ img, pyTruthy md.image = true →
      fetchUpload (md.image.getD [])
          (if titleText.isEmpty then pyGetOr md.title ("Preview image".data)
            else titleText) = some img →
      composeEmbed fetchUpload link titleText md =
        some (Embed.images [img])) ∧
    ((pyTruthy md.image = false ∨
        fetchUpload (md.image.getD [])
          (if titleText.isEmpty then pyGetOr md.title ("Preview image".data)
            else titleText) = none) →
      ((pyTruthy md.title || pyTruthy md.description) = true →
        composeEmbed fetchUpload link titleText md =
          some (Embed.external link (pyGetOr md.title ("Link".data))
            (pyGetOr md.description []))) ∧
      ((pyTruthy md.title || pyTruthy md.description) = false →
        composeEmbed fetchUpload link titleText md = none)) := by
  constructor
  · intro img hA hF
    unfold composeEmbed
    simp only [hA, hF]
    simp
  · intro hfail
    have key : composeEmbed fetchUpload link titleText md =
        (if (pyTruthy md.title || pyTruthy md.description) = true then
          some (Embed.external link (pyGetOr md.title ("Link".data))
            (pyGetOr md.description []))
        else none) := by
      unfold composeEmbed
      cases hfail with
      | inl h =>
        simp only [h]
        simp
      | inr h =>
        by_cases hA : pyTruthy md.image = true
        · simp only [hA, h]
          simp
        · simp only [Bool.not_eq_true] at hA
          simp only [hA]
          simp
    constructor <;> intro hext <;> rw [key] <;> simp [hext]

/-- Claim C5, witness: with metadata holding the title `"T"` and image URL
`"I"`, and a successful fetch-and-upload, the Image embed wins. -/
theorem embed_selection_witness :
    pyTruthy (LinkMetadata.image ⟨some ("T".data), none, some ("I".data)⟩) =
      true ∧
    composeEmbed (fun _ a => some ⟨a, 7⟩) ("L".data) ("T".data)
        ⟨some ("T".data), none, some ("I".data)⟩ =
      some (Embed.images [⟨"T".data, 7⟩]) :=
  ⟨by decide,
    (embed_selection (fun _ a => some ⟨a, 7⟩) ("L".data) ("T".data)
        ⟨some ("T".data), none, some ("I".data)⟩).1
      ⟨"T".data, 7⟩ (by decide) (by decide)⟩

/-! ## Claim C6 -/

/-- Claim C6: whenever the metadata fetch or parse raises, the fetcher
returns the empty LinkMetadata — every field absent — instead of
propagating the error, so the entry can still be posted with no embed. -/
theorem fetch_metadata_degrades (err : List Char) :
    fetch_link_metadata (Except.error err) = ⟨none, none, none⟩ :=
  rfl

/-! ## Claim C8 -/

/-- Claim C8: every feed entry that passes the dedup gate leads to an actual
`send_post` invocation carrying the built rich text and the chosen embed;
the "test mode" wording appears only in log strings and does not suppress
the submission. -/
theorem test_mode_sends (soupText : List Char → List Char)
    (fetchMeta : List Char → LinkMetadata)
    (fetchUpload : List Char → List Char → Option ImageModel)
    (lastBsky : Int) (entry : FeedEntry)
    (h : shouldPost entry.published lastBsky = true) :
    processEntry soupText fetchMeta fetchUpload lastBsky entry =
      [Action.send
        (make_rich (process_title soupText entry.title ++ '\n' :: entry.link))
        (composeEmbed fetchUpload entry.link
          (process_title soupText entry.title) (fetchMeta entry.link))] := by
  unfold processEntry
  rw [if_pos h]

/-- Claim C8, witness: an entry published at time 5 against a marker of 0
passes the gate and yields exactly one submission. -/
theorem test_mode_sends_witness :
    shouldPost 5 0 = true ∧
    processEntry (fun t => t) (fun _ => ⟨none, none, none⟩) (fun _ _ => none)
        0 ⟨"T".data, "x".data, 5⟩ =
      [Action.send
        (make_rich (process_title (fun t => t) ("T".data) ++ '\n' :: "x".data))
        (composeEmbed (fun _ _ => none) ("x".data)
          (process_title (fun t => t) ("T".data)) ⟨none, none, none⟩)] :=
  ⟨by decide,
    test_mode_sends (fun t => t) (fun _ => ⟨none, none, none⟩)
      (fun _ _ => none) 0 ⟨"T".data, "x".data, 5⟩ (by decide)⟩

/-! ## Claim C9 -/

theorem backoffSeq_closed (n : Nat) :
    backoffSeq n = min (60 * (n + 1)) 600 := by
  induction n with
  | zero => rfl
  | succ n ih =>
    rw [backoffSeq, ih]
    omega

/-- Claim C9: the driver leaves the login loop only on a successful attempt
(whatever finite prefix of attempts is observed); the delay slept after the
`n`-th failed attempt is `min(60 * (n + 1), 600)` — linear growth from 60,
capped at 600 — hence never exceeds the cap, is non-decreasing, and stays
constant once the cap is reached. -/
theorem login_backoff :
    (∀ (login : Nat → Bool) (fuel start k : Nat),
      loginLoop login fuel start = some k → login k = true) ∧
    (∀ n, backoffSeq n = min (60 * (n + 1)) 600) ∧
    (∀ n, backoffSeq n ≤ 600 ∧ backoffSeq n ≤ backoffSeq (n + 1)) ∧
    (∀ n m, backoffSeq n = 600 → n ≤ m → backoffSeq m = 600) := by
  refine ⟨?_, backoffSeq_closed, ?_, ?_⟩
  · intro login fuel
    induction fuel with
    | zero => intro start k h; exact absurd h (by simp [loginLoop])
    | succ n ih =>
      intro start k h
      rw [loginLoop] at h
      by_cases hs : login start = true
      · rw [if_pos hs] at h
        obtain rfl : start = k := by simpa using h
        exact hs
      · rw [if_neg hs] at h
        exact ih (start + 1) k h
  · intro n
    rw [backoffSeq_closed, backoffSeq_closed]
    omega
  · intro n m h1 h2
    rw [backoffSeq_closed] at h1 ⊢
    omega

/-- Claim C9, witness: with attempts failing until the third try, the loop
returns attempt index 2, which the theorem certifies as successful; and the
tenth delay has reached the 600-second cap. -/
theorem login_backoff_witness :
    (fun k => k == 2) 2 = true ∧ backoffSeq 9 = 600 :=
  ⟨login_backoff.1 (fun k => k == 2) 5 0 2 (by decide),
    (login_backoff.2.1 9).trans (by decide)⟩

end Rss2Bsky
